import Mathlib

/-!
Verification development for the Thermistor_Calculator repository (src/Main.c).

The program is a single computational pipeline over C `double` values:
for each ADC code it computes a voltage-divider output voltage, inverts the
divider to obtain the thermistor resistance (two circuit variants), and
converts the resistance to a Celsius temperature with the Beta model.

C doubles are embedded as exact real numbers extended with the IEEE-754
special values +inf, -inf and NaN (type `FP` below).  The arithmetic
operations follow the IEEE-754 rules for special operands (division of a
nonzero number by zero gives a signed infinity, `log 0 = -inf`, `log` of a
negative number is NaN, NaN propagates, ...), while finite arithmetic is
exact (rounding is not modelled; zero is unsigned).  Machine unsigned
integers are `Nat` with explicit `% 2^32` where C unsigned wraparound can
occur.
-/

namespace ThermistorCalculator

/-- A C `double`, modelled as an exact real number or one of the IEEE-754
special values. -/
inductive FP where
  | num (x : ℝ)
  | posInf
  | negInf
  | nan

/-- IEEE addition on the embedded doubles (finite arithmetic exact). -/
noncomputable def fpAdd : FP → FP → FP
  | .num x, .num y => .num (x + y)
  | .num _, .posInf => .posInf
  | .num _, .negInf => .negInf
  | .posInf, .num _ => .posInf
  | .posInf, .posInf => .posInf
  | .negInf, .num _ => .negInf
  | .negInf, .negInf => .negInf
  | _, _ => .nan

/-- IEEE subtraction on the embedded doubles (finite arithmetic exact). -/
noncomputable def fpSub : FP → FP → FP
  | .num x, .num y => .num (x - y)
  | .num _, .posInf => .negInf
  | .num _, .negInf => .posInf
  | .posInf, .num _ => .posInf
  | .posInf, .negInf => .posInf
  | .negInf, .num _ => .negInf
  | .negInf, .posInf => .negInf
  | _, _ => .nan

/-- IEEE multiplication on the embedded doubles (finite arithmetic exact). -/
noncomputable def fpMul : FP → FP → FP
  | .num x, .num y => .num (x * y)
  | .num x, .posInf => if 0 < x then .posInf else if x < 0 then .negInf else .nan
  | .num x, .negInf => if 0 < x then .negInf else if x < 0 then .posInf else .nan
  | .posInf, .num y => if 0 < y then .posInf else if y < 0 then .negInf else .nan
  | .negInf, .num y => if 0 < y then .negInf else if y < 0 then .posInf else .nan
  | .posInf, .posInf => .posInf
  | .posInf, .negInf => .negInf
  | .negInf, .posInf => .negInf
  | .negInf, .negInf => .posInf
  | _, _ => .nan

/-- IEEE division on the embedded doubles: a nonzero finite number divided by
zero is a signed infinity, `0 / 0` is NaN, a finite number divided by an
infinity is zero.  Zero is unsigned (treated as `+0`), which is adequate here
because the program never divides by a negative zero. -/
noncomputable def fpDiv : FP → FP → FP
  | .num x, .num y =>
      if y = 0 then (if 0 < x then .posInf else if x < 0 then .negInf else .nan)
      else .num (x / y)
  | .num _, .posInf => .num 0
  | .num _, .negInf => .num 0
  | .posInf, .num y => if 0 ≤ y then .posInf else .negInf
  | .negInf, .num y => if 0 ≤ y then .negInf else .posInf
  | _, _ => .nan

/-- The C `log` function on the embedded doubles: natural logarithm for a
positive argument, `-inf` at zero, NaN for a negative argument or NaN,
`+inf` at `+inf`. -/
noncomputable def fpLog : FP → FP
  | .num x => if 0 < x then .num (Real.log x) else if x = 0 then .negInf else .nan
  | .posInf => .posInf
  | _ => .nan

/-- Whether a value is one of the IEEE special values (an infinity or NaN). -/
def isSpecial : FP → Bool
  | .num _ => false
  | _ => true

/-- `MainComputeVoltageDividerOutputVoltage` (src/Main.c line 80): returns
`Voltage_Divider_Bridge_Voltage * ADC_Value / (ADC_Resolution - 1)`, where
`ADC_Resolution - 1` is computed in C `unsigned int` arithmetic (wraparound
modulo `2^32`) before being converted to `double`. -/
noncomputable def MainComputeVoltageDividerOutputVoltage
    (Voltage_Divider_Bridge_Voltage : FP) (ADC_Resolution ADC_Value : ℕ) : FP :=
  fpDiv (fpMul Voltage_Divider_Bridge_Voltage (.num (ADC_Value : ℝ)))
    (.num (((ADC_Resolution + 4294967295) % 4294967296 : ℕ) : ℝ))

/-- `MainComputeThermistorResistance` (src/Main.c line 92): variant 1 computes
`Vout * R / (Vcc - Vout)`, any other variant computes `Vcc * R / Vout - R`. -/
noncomputable def MainComputeThermistorResistance (Circuit_Variant : ℤ)
    (Voltage_Divider_Bridge_Voltage Voltage_Divider_Output_Voltage
     Voltage_Divider_Resistor : FP) : FP :=
  if Circuit_Variant = 1 then
    fpDiv (fpMul Voltage_Divider_Output_Voltage Voltage_Divider_Resistor)
      (fpSub Voltage_Divider_Bridge_Voltage Voltage_Divider_Output_Voltage)
  else
    fpSub (fpDiv (fpMul Voltage_Divider_Bridge_Voltage Voltage_Divider_Resistor)
      Voltage_Divider_Output_Voltage) Voltage_Divider_Resistor

/-- `MainComputeThermistorTemperature` (src/Main.c line 110): computes
`1 / (log(R / R25) / Beta + 1 / (273.15 + 25))` and subtracts `273.15`. -/
noncomputable def MainComputeThermistorTemperature
    (Thermistor_Beta_Coefficient Thermistor_Reference_Resistance
     Thermistor_Resistance : FP) : FP :=
  fpSub
    (fpDiv (.num 1)
      (fpAdd
        (fpDiv (fpLog (fpDiv Thermistor_Resistance Thermistor_Reference_Resistance))
          Thermistor_Beta_Coefficient)
        (fpDiv (.num 1) (.num (273.15 + 25)))))
    (.num 273.15)

/-- The configuration held in `main`'s local variables (src/Main.c
lines 123-125): circuit variant, Beta coefficient, reference resistance R25,
bridge resistor, supply voltage Vcc and ADC resolution. -/
structure Config where
  circuit_variant : ℤ
  beta_coefficient : ℝ
  reference_resistance : ℝ
  bridge_resistor : ℝ
  supply_voltage : ℝ
  adc_resolution : ℕ

/-- The default values assigned before option parsing (src/Main.c
lines 123-125). -/
noncomputable def defaultConfig : Config :=
  { circuit_variant := 1, beta_coefficient := 4300, reference_resistance := 10000,
    bridge_resistor := 10000, supply_voltage := 3.3, adc_resolution := 256 }

/-- `TMainComputedValues` (src/Main.c line 20): one entry of the `Values`
table. -/
structure TMainComputedValues where
  Voltage_Divider_Output_Voltage : FP
  Thermistor_Resistance : FP
  Thermistor_Temperature : FP

/-- The body of the compute loop (src/Main.c lines 223-225): the three
pipeline stages chained on ADC value `i`, each reading the field the
previous assignment just wrote. -/
noncomputable def computeValuesEntry (cfg : Config) (i : ℕ) : TMainComputedValues :=
  let v := MainComputeVoltageDividerOutputVoltage (.num cfg.supply_voltage)
    cfg.adc_resolution i
  let r := MainComputeThermistorResistance cfg.circuit_variant
    (.num cfg.supply_voltage) v (.num cfg.bridge_resistor)
  let t := MainComputeThermistorTemperature (.num cfg.beta_coefficient)
    (.num cfg.reference_resistance) r
  ⟨v, r, t⟩

/-- The compute loop `for (i = 0; i < ADC_Resolution; i++)` (src/Main.c
lines 221-226), modelled as successive updates of the `Values` array (an
assignment of index `ℕ → TMainComputedValues`); `computeLoop cfg n vals` is
the array state after the iterations `i = 0, ..., n-1`. -/
noncomputable def computeLoop (cfg : Config) : ℕ → (ℕ → TMainComputedValues) →
    (ℕ → TMainComputedValues)
  | 0, vals => vals
  | n + 1, vals => Function.update (computeLoop cfg n vals) n (computeValuesEntry cfg n)

/-- The `Values` array before `main` runs: a C static array is
zero-initialized, so every entry holds three `0.0` doubles
(src/Main.c line 31). -/
def initValues : ℕ → TMainComputedValues :=
  fun _ => ⟨.num 0, .num 0, .num 0⟩

/-- The rows emitted by the print loop (src/Main.c line 230): for each `i`
from `0` to `ADC_Resolution - 1` in order, the ADC value `i` together with
the `Values[i]` entry left by the compute loop. -/
noncomputable def mainEmittedRows (cfg : Config) (vals : ℕ → TMainComputedValues) :
    List (ℕ × TMainComputedValues) :=
  (List.range cfg.adc_resolution).map
    (fun i => (i, computeLoop cfg cfg.adc_resolution vals i))

/-- One option event of the `getopt` loop (src/Main.c lines 133-218): the
option character together with the result of the `sscanf` conversion of its
argument (`none` models a conversion failure); `optUnknown` is getopt's
`?` case for an unrecognized option or a missing argument. -/
inductive CliOption where
  | optBeta (v : Option ℝ)
  | optReference (v : Option ℝ)
  | optAdc (v : Option ℕ)
  | optCircuit (v : Option ℤ)
  | optHelp
  | optResistor (v : Option ℝ)
  | optVoltage (v : Option ℝ)
  | optUnknown

/-- How `main` leaves the option loop: an error exit (`return EXIT_FAILURE`),
the help exit (`return EXIT_SUCCESS` for `-h`), or falling through to the
table computation with the final variable values. -/
inductive MainOutcome where
  | exitFailure
  | exitSuccessHelp
  | table (cfg : Config)

/-- The option-processing loop of `main` (src/Main.c lines 133-218): each
option either fails (bad `sscanf`, ADC resolution above 65536, circuit
variant outside `{1, 2}`, unknown option), exits for `-h`, or overwrites one
configuration variable and continues. -/
noncomputable def processOptions : List CliOption → Config → MainOutcome
  | [], cfg => .table cfg
  | o :: rest, cfg =>
    match o with
    | .optBeta none => .exitFailure
    | .optBeta (some x) => processOptions rest { cfg with beta_coefficient := x }
    | .optReference none => .exitFailure
    | .optReference (some x) => processOptions rest { cfg with reference_resistance := x }
    | .optAdc none => .exitFailure
    | .optAdc (some a) =>
        if 65536 < a then .exitFailure
        else processOptions rest { cfg with adc_resolution := a }
    | .optCircuit none => .exitFailure
    | .optCircuit (some c) =>
        if c < 1 ∨ 2 < c then .exitFailure
        else processOptions rest { cfg with circuit_variant := c }
    | .optHelp => .exitSuccessHelp
    | .optResistor none => .exitFailure
    | .optResistor (some x) => processOptions rest { cfg with bridge_resistor := x }
    | .optVoltage none => .exitFailure
    | .optVoltage (some x) => processOptions rest { cfg with supply_voltage := x }
    | .optUnknown => .exitFailure

/-- The observable result of a `main` run: a failure exit prints no table
row, the `-h` exit prints only the usage text, and a successful run prints
the full table. -/
inductive MainResult where
  | failure
  | helpOnly
  | success (rows : List (ℕ × TMainComputedValues))

/-- A full run of `main` (src/Main.c lines 121-233): process the options
from the defaults, then either exit or compute and print the table. -/
noncomputable def mainRun (opts : List CliOption) (vals : ℕ → TMainComputedValues) :
    MainResult :=
  match processOptions opts defaultConfig with
  | .exitFailure => .failure
  | .exitSuccessHelp => .helpOnly
  | .table cfg => .success (mainEmittedRows cfg vals)

/-- Modelled from the spec: the forward voltage-divider equation (spec §4.3,
§8 round-trip property, glossary), which the repository does not implement
itself.  With the fixed resistor on the Vcc side (variant 1) the output
voltage is `Vcc * R_ntc / (R_bridge + R_ntc)`; with the thermistor on the
Vcc side (variant 2) it is `Vcc * R_bridge / (R_ntc + R_bridge)`. -/
noncomputable def forwardDividerOutputVoltage (variant : ℤ) (Vcc Rb Rntc : ℝ) : ℝ :=
  if variant = 1 then Vcc * Rntc / (Rb + Rntc) else Vcc * Rb / (Rntc + Rb)

/-- The C unsigned subtraction `ADC_Resolution - 1` equals `n - 1` for any
resolution between 1 and `2^32`. -/
theorem uintSub_eq (n : ℕ) (h1 : 1 ≤ n) (h2 : n ≤ 4294967296) :
    (n + 4294967295) % 4294967296 = n - 1 := by
  have h : n + 4294967295 = (n - 1) + 4294967296 := by omega
  rw [h, Nat.add_mod_right]
  exact Nat.mod_eq_of_lt (by omega)

/-- After the compute loop has run its first `n` iterations, every array
entry of index `j < n` holds the pipeline result for ADC value `j`. -/
theorem computeLoop_get (cfg : Config) (vals : ℕ → TMainComputedValues)
    (n j : ℕ) (h : j < n) :
    computeLoop cfg n vals j = computeValuesEntry cfg j := by
  induction n with
  | zero => omega
  | succ m ih =>
    by_cases hj : j = m
    · subst hj
      simp [computeLoop, Function.update]
    · have hjm : j < m := by omega
      simp [computeLoop, Function.update, hj, ih hjm]

/-- The emitted rows are exactly the ADC codes `0, ..., adc_resolution - 1`
in order, each paired with the composed pipeline output for that code. -/
theorem mainEmittedRows_eq (cfg : Config) (vals : ℕ → TMainComputedValues) :
    mainEmittedRows cfg vals =
      (List.range cfg.adc_resolution).map (fun i => (i, computeValuesEntry cfg i)) := by
  unfold mainEmittedRows
  refine List.map_congr_left ?_
  intro i hi
  rw [computeLoop_get cfg vals _ i (List.mem_range.mp hi)]

/-- Evaluation of the voltage stage at a finite supply voltage, for any
resolution between 2 and 65536 and any ADC value. -/
theorem voltage_eval (Vcc : ℝ) (n code : ℕ) (h2 : 2 ≤ n) (h65536 : n ≤ 65536) :
    MainComputeVoltageDividerOutputVoltage (.num Vcc) n code =
      .num (Vcc * (code : ℝ) / ((n : ℝ) - 1)) := by
  unfold MainComputeVoltageDividerOutputVoltage
  rw [uintSub_eq n (by omega) (by omega)]
  have hcast : ((n - 1 : ℕ) : ℝ) = (n : ℝ) - 1 := by
    push_cast [Nat.cast_sub (by omega : 1 ≤ n)]
    ring
  have hne : ((n : ℝ) - 1) ≠ 0 := by
    have : (2 : ℝ) ≤ (n : ℝ) := by exact_mod_cast h2
    linarith
  rw [hcast]
  simp [fpMul, fpDiv, hne]

/-- C1: for every resolved configuration (ADC resolution between 2 and
65536) and every ADC code below the resolution, the voltage stage returns
exactly `supply_voltage * code / (adc_resolution - 1)`. -/
theorem voltage_stage_formula (cfg : Config) (code : ℕ)
    (h2 : 2 ≤ cfg.adc_resolution) (h65536 : cfg.adc_resolution ≤ 65536)
    (hcode : code < cfg.adc_resolution) :
    MainComputeVoltageDividerOutputVoltage (.num cfg.supply_voltage)
        cfg.adc_resolution code =
      .num (cfg.supply_voltage * (code : ℝ) / ((cfg.adc_resolution : ℝ) - 1)) :=
  voltage_eval cfg.supply_voltage cfg.adc_resolution code h2 h65536

/-- C1 witness: the voltage stage at the default configuration and ADC code
128 returns `3.3 * 128 / 255`. -/
theorem voltage_stage_formula_witness :
    2 ≤ defaultConfig.adc_resolution ∧ defaultConfig.adc_resolution ≤ 65536 ∧
    128 < defaultConfig.adc_resolution ∧
    MainComputeVoltageDividerOutputVoltage (.num defaultConfig.supply_voltage)
        defaultConfig.adc_resolution 128 =
      .num (defaultConfig.supply_voltage * ((128 : ℕ) : ℝ) /
        ((defaultConfig.adc_resolution : ℝ) - 1)) :=
  ⟨by norm_num [defaultConfig], by norm_num [defaultConfig], by norm_num [defaultConfig],
    voltage_stage_formula defaultConfig 128 (by norm_num [defaultConfig])
      (by norm_num [defaultConfig]) (by norm_num [defaultConfig])⟩

/-- C2: wherever the spec's formulas are defined (divider output voltage
distinct from Vcc for variant 1, nonzero for variant 2), the resistance
stage returns `Vout * R / (Vcc - Vout)` for circuit variant 1
(ResistorThenNtc) and `Vcc * R / Vout - R` for circuit variant 2
(NtcThenResistor). -/
theorem resistance_stage_formula (Vcc Vout R : ℝ) :
    (Vout ≠ Vcc →
      MainComputeThermistorResistance 1 (.num Vcc) (.num Vout) (.num R) =
        .num (Vout * R / (Vcc - Vout))) ∧
    (Vout ≠ 0 →
      MainComputeThermistorResistance 2 (.num Vcc) (.num Vout) (.num R) =
        .num (Vcc * R / Vout - R)) := by
  constructor
  · intro h
    have hne : Vcc - Vout ≠ 0 := sub_ne_zero.mpr (Ne.symm h)
    simp [MainComputeThermistorResistance, fpMul, fpSub, fpDiv, hne]
  · intro h
    simp [MainComputeThermistorResistance, fpMul, fpSub, fpDiv, h]

/-- C2 witness: at `Vcc = 3.3`, `Vout = 1.65`, `R = 10000`, variant 1
returns `1.65 * 10000 / (3.3 - 1.65)` and variant 2 returns
`3.3 * 10000 / 1.65 - 10000`. -/
theorem resistance_stage_formula_witness :
    ((1.65 : ℝ) ≠ 3.3 ∧
      MainComputeThermistorResistance 1 (.num 3.3) (.num 1.65) (.num 10000) =
        .num (1.65 * 10000 / (3.3 - 1.65))) ∧
    ((1.65 : ℝ) ≠ 0 ∧
      MainComputeThermistorResistance 2 (.num 3.3) (.num 1.65) (.num 10000) =
        .num (3.3 * 10000 / 1.65 - 10000)) :=
  ⟨⟨by norm_num, (resistance_stage_formula 3.3 1.65 10000).1 (by norm_num)⟩,
   ⟨by norm_num, (resistance_stage_formula 3.3 1.65 10000).2 (by norm_num)⟩⟩

/-- Evaluation of the temperature stage at finite arguments in the domain of
the Beta model. -/
theorem temperature_eval (Beta R25 R : ℝ)
    (hpos : 0 < R / R25) (hB : Beta ≠ 0)
    (hden : Real.log (R / R25) / Beta + 1 / 298.15 ≠ 0) :
    MainComputeThermistorTemperature (.num Beta) (.num R25) (.num R) =
      .num (1 / (Real.log (R / R25) / Beta + 1 / 298.15) - 273.15) := by
  have hR25 : R25 ≠ 0 := by
    intro h
    rw [h, div_zero] at hpos
    exact lt_irrefl 0 hpos
  have h298 : (273.15 : ℝ) + 25 = 298.15 := by norm_num
  have e1 : fpDiv (.num R) (.num R25) = .num (R / R25) := by
    simp [fpDiv, hR25]
  have e2 : fpLog (.num (R / R25)) = .num (Real.log (R / R25)) := by
    simp [fpLog, hpos]
  have e3 : fpDiv (.num (Real.log (R / R25))) (.num Beta) =
      .num (Real.log (R / R25) / Beta) := by
    simp [fpDiv, hB]
  have e4 : fpDiv (.num 1) (.num (273.15 + 25)) = .num (1 / 298.15) := by
    rw [h298]
    have : (298.15 : ℝ) ≠ 0 := by norm_num
    simp [fpDiv, this]
  have e5 : fpAdd (.num (Real.log (R / R25) / Beta)) (.num (1 / 298.15)) =
      .num (Real.log (R / R25) / Beta + 1 / 298.15) := by
    simp [fpAdd]
  have hden' : Real.log (R / R25) / Beta + (298.15 : ℝ)⁻¹ ≠ 0 := by
    rwa [one_div] at hden
  have e6 : fpDiv (.num 1) (.num (Real.log (R / R25) / Beta + 1 / 298.15)) =
      .num (1 / (Real.log (R / R25) / Beta + 1 / 298.15)) := by
    simp [fpDiv, hden']
  unfold MainComputeThermistorTemperature
  rw [e1, e2, e3, e4, e5, e6]
  simp [fpSub]

/-- C3: for every Beta, R25 and R such that `R / R25` is positive, Beta is
nonzero and the Beta-model denominator is nonzero, the temperature stage
returns `1 / (ln(R / R25) / Beta + 1 / 298.15) - 273.15`, with the
reference temperatures 298.15 and 273.15 fixed in the formula. -/
theorem temperature_stage_formula (Beta R25 R : ℝ)
    (hpos : 0 < R / R25) (hB : Beta ≠ 0)
    (hden : Real.log (R / R25) / Beta + 1 / 298.15 ≠ 0) :
    MainComputeThermistorTemperature (.num Beta) (.num R25) (.num R) =
      .num (1 / (Real.log (R / R25) / Beta + 1 / 298.15) - 273.15) :=
  temperature_eval Beta R25 R hpos hB hden

/-- C3 witness: at `Beta = 4300`, `R25 = 10000`, `R = 10000` the hypotheses
hold and the temperature stage returns the Beta-model value. -/
theorem temperature_stage_formula_witness :
    (0 : ℝ) < 10000 / 10000 ∧ (4300 : ℝ) ≠ 0 ∧
    Real.log ((10000 : ℝ) / 10000) / 4300 + 1 / 298.15 ≠ 0 ∧
    MainComputeThermistorTemperature (.num 4300) (.num 10000) (.num 10000) =
      .num (1 / (Real.log ((10000 : ℝ) / 10000) / 4300 + 1 / 298.15) - 273.15) :=
  ⟨by norm_num, by norm_num, by norm_num [Real.log_one],
    temperature_stage_formula 4300 10000 10000 (by norm_num) (by norm_num)
      (by norm_num [Real.log_one])⟩

/-- C4: for every configuration reaching the compute loop and every initial
array state, the program emits exactly one row per ADC code `0, ...,
adc_resolution - 1`, in ascending ADC-code order, each row being the
composition of the voltage, resistance and temperature stages at its code;
no row is skipped, reordered or deduplicated. -/
theorem table_rows_complete (cfg : Config) (vals : ℕ → TMainComputedValues) :
    mainEmittedRows cfg vals =
      (List.range cfg.adc_resolution).map (fun i => (i, computeValuesEntry cfg i)) ∧
    (mainEmittedRows cfg vals).length = cfg.adc_resolution ∧
    (mainEmittedRows cfg vals).Pairwise
      (fun p q : ℕ × TMainComputedValues => p.1 < q.1) := by
  have hmap := mainEmittedRows_eq cfg vals
  refine ⟨hmap, ?_, ?_⟩
  · rw [hmap]
    simp
  · rw [hmap]
    exact List.Pairwise.map _ (fun a b h => h) (List.pairwise_lt_range _)

/-- C9: for every nonzero Beta and positive reference resistance R25, the
temperature stage applied to a resistance equal to R25 returns exactly
25 Celsius, independent of Beta. -/
theorem temperature_at_reference (Beta R25 : ℝ) (hB : Beta ≠ 0) (hR25 : 0 < R25) :
    MainComputeThermistorTemperature (.num Beta) (.num R25) (.num R25) = .num 25 := by
  have hpos : 0 < R25 / R25 := by
    rw [div_self hR25.ne']
    norm_num
  have hden : Real.log (R25 / R25) / Beta + 1 / 298.15 ≠ 0 := by
    rw [div_self hR25.ne', Real.log_one, zero_div, zero_add]
    norm_num
  rw [temperature_eval Beta R25 R25 hpos hB hden,
    div_self hR25.ne', Real.log_one, zero_div, zero_add]
  norm_num

/-- C9 witness: at `Beta = 4300`, `R25 = 10000` the temperature stage
returns exactly 25 Celsius. -/
theorem temperature_at_reference_witness :
    (4300 : ℝ) ≠ 0 ∧ (0 : ℝ) < 10000 ∧
    MainComputeThermistorTemperature (.num 4300) (.num 10000) (.num 10000) =
      .num 25 :=
  ⟨by norm_num, by norm_num,
    temperature_at_reference 4300 10000 (by norm_num) (by norm_num)⟩

/-- C6 counterexample: with the default Beta and R25, the temperature stage
at resistance zero returns the finite value `-273.15` — not an infinity or
NaN — because `log 0 = -inf` makes the Kelvin expression `1 / -inf = 0`. -/
theorem temperature_zero_resistance_counterexample :
    MainComputeThermistorTemperature (.num 4300) (.num 10000) (.num 0) =
      .num (-273.15) ∧
    isSpecial (MainComputeThermistorTemperature (.num 4300) (.num 10000) (.num 0)) =
      false := by
  have h : MainComputeThermistorTemperature (.num 4300) (.num 10000) (.num 0) =
      .num (-273.15) := by
    have e1 : fpDiv (.num 0) (.num 10000) = .num 0 := by
      norm_num [fpDiv]
    have e2 : fpLog (.num 0) = FP.negInf := by
      norm_num [fpLog]
    unfold MainComputeThermistorTemperature
    rw [e1, e2]
    norm_num [fpDiv, fpAdd, fpSub]
  exact ⟨h, by rw [h]; rfl⟩

/-- C6 amended: for every positive Beta and R25, a negative resistance makes
the temperature stage return NaN (a floating-point special value), while a
zero resistance makes it return the finite value `-273.15`; in neither case
does the computation abort. -/
theorem temperature_nonpositive_resistance (Beta R25 R : ℝ)
    (hB : 0 < Beta) (hR25 : 0 < R25) :
    (R < 0 →
      MainComputeThermistorTemperature (.num Beta) (.num R25) (.num R) = .nan) ∧
    (R = 0 →
      MainComputeThermistorTemperature (.num Beta) (.num R25) (.num R) =
        .num (-273.15)) := by
  constructor
  · intro hR
    have e1 : fpDiv (.num R) (.num R25) = .num (R / R25) := by
      simp [fpDiv, hR25.ne']
    have hneg : R / R25 < 0 := div_neg_of_neg_of_pos hR hR25
    have e2 : fpLog (.num (R / R25)) = FP.nan := by
      simp [fpLog, not_lt_of_lt hneg, hneg.ne]
    unfold MainComputeThermistorTemperature
    rw [e1, e2]
    simp [fpDiv, fpAdd, fpSub]
  · intro hR
    subst hR
    have e1 : fpDiv (.num 0) (.num R25) = .num 0 := by
      simp [fpDiv, hR25.ne']
    have e2 : fpLog (.num 0) = FP.negInf := by
      norm_num [fpLog]
    have e3 : fpDiv FP.negInf (.num Beta) = FP.negInf := by
      simp [fpDiv, hR25.le, hB.le]
    unfold MainComputeThermistorTemperature
    rw [e1, e2, e3]
    norm_num [fpDiv, fpAdd, fpSub]

/-- C6 witness: at `Beta = 4300`, `R25 = 10000`, resistance `-5` gives NaN
and resistance `0` gives the finite value `-273.15`. -/
theorem temperature_nonpositive_resistance_witness :
    (0 : ℝ) < 4300 ∧ (0 : ℝ) < 10000 ∧
    MainComputeThermistorTemperature (.num 4300) (.num 10000) (.num (-5)) =
      .nan :=
  ⟨by norm_num, by norm_num,
    (temperature_nonpositive_resistance 4300 10000 (-5) (by norm_num)
      (by norm_num)).1 (by norm_num)⟩

/-- C7: for every resolved configuration with positive supply voltage and
bridge resistor, circuit variant 1 makes the row at ADC code
`adc_resolution - 1` carry resistance `+inf`, and circuit variant 2 makes
the row at ADC code 0 carry resistance `+inf`; in both cases the row is
still present in the emitted table. -/
theorem boundary_rows_infinite (cfg : Config) (vals : ℕ → TMainComputedValues)
    (h2 : 2 ≤ cfg.adc_resolution) (h65536 : cfg.adc_resolution ≤ 65536)
    (hV : 0 < cfg.supply_voltage) (hR : 0 < cfg.bridge_resistor) :
    (cfg.circuit_variant = 1 →
      (computeValuesEntry cfg (cfg.adc_resolution - 1)).Thermistor_Resistance =
        FP.posInf ∧
      (cfg.adc_resolution - 1, computeValuesEntry cfg (cfg.adc_resolution - 1)) ∈
        mainEmittedRows cfg vals) ∧
    (cfg.circuit_variant = 2 →
      (computeValuesEntry cfg 0).Thermistor_Resistance = FP.posInf ∧
      (0, computeValuesEntry cfg 0) ∈ mainEmittedRows cfg vals) := by
  have hmem : ∀ j, j < cfg.adc_resolution →
      (j, computeValuesEntry cfg j) ∈ mainEmittedRows cfg vals := by
    intro j hj
    rw [mainEmittedRows_eq cfg vals]
    exact List.mem_map_of_mem _ (List.mem_range.mpr hj)
  constructor
  · intro hvar
    refine ⟨?_, hmem _ (by omega)⟩
    have hv : MainComputeVoltageDividerOutputVoltage (.num cfg.supply_voltage)
        cfg.adc_resolution (cfg.adc_resolution - 1) = .num cfg.supply_voltage := by
      rw [voltage_eval cfg.supply_voltage cfg.adc_resolution _ h2 h65536]
      have hcast : ((cfg.adc_resolution - 1 : ℕ) : ℝ) = (cfg.adc_resolution : ℝ) - 1 := by
        push_cast [Nat.cast_sub (by omega : 1 ≤ cfg.adc_resolution)]
        ring
      have hne : ((cfg.adc_resolution : ℝ) - 1) ≠ 0 := by
        have : (2 : ℝ) ≤ (cfg.adc_resolution : ℝ) := by exact_mod_cast h2
        linarith
      rw [hcast, mul_div_assoc, div_self hne, mul_one]
    unfold computeValuesEntry
    rw [hv, hvar]
    unfold MainComputeThermistorResistance
    norm_num [fpSub, fpMul, fpDiv, sub_self, mul_pos hV hR]
  · intro hvar
    refine ⟨?_, hmem 0 (by omega)⟩
    have hv : MainComputeVoltageDividerOutputVoltage (.num cfg.supply_voltage)
        cfg.adc_resolution 0 = .num 0 := by
      rw [voltage_eval cfg.supply_voltage cfg.adc_resolution 0 h2 h65536]
      norm_num
    unfold computeValuesEntry
    rw [hv, hvar]
    unfold MainComputeThermistorResistance
    norm_num [fpSub, fpMul, fpDiv, mul_pos hV hR]

/-- C7 witness: at the default configuration (circuit variant 1, resolution
256), the row at ADC code 255 carries resistance `+inf` and is in the
emitted table. -/
theorem boundary_rows_infinite_witness :
    2 ≤ defaultConfig.adc_resolution ∧ defaultConfig.adc_resolution ≤ 65536 ∧
    0 < defaultConfig.supply_voltage ∧ 0 < defaultConfig.bridge_resistor ∧
    defaultConfig.circuit_variant = 1 ∧
    ((computeValuesEntry defaultConfig (defaultConfig.adc_resolution - 1)).Thermistor_Resistance =
      FP.posInf ∧
      (defaultConfig.adc_resolution - 1,
        computeValuesEntry defaultConfig (defaultConfig.adc_resolution - 1)) ∈
        mainEmittedRows defaultConfig initValues) :=
  ⟨by norm_num [defaultConfig], by norm_num [defaultConfig],
   by norm_num [defaultConfig], by norm_num [defaultConfig], rfl,
   (boundary_rows_infinite defaultConfig initValues (by norm_num [defaultConfig])
      (by norm_num [defaultConfig]) (by norm_num [defaultConfig])
      (by norm_num [defaultConfig])).1 rfl⟩

/-- C8: for both circuit variants, for every positive Vcc and bridge
resistor and every divider output voltage strictly between 0 and Vcc, the
resistance stage returns a finite resistance from which the forward
voltage-divider equation recovers the original voltage exactly. -/
theorem resistance_round_trip (v : ℤ) (Vcc Rb V : ℝ)
    (hv : v = 1 ∨ v = 2) (hVcc : 0 < Vcc) (hRb : 0 < Rb)
    (hV0 : 0 < V) (hVlt : V < Vcc) :
    ∃ r : ℝ, MainComputeThermistorResistance v (.num Vcc) (.num V) (.num Rb) =
        .num r ∧ forwardDividerOutputVoltage v Vcc Rb r = V := by
  have hsub : Vcc - V ≠ 0 := sub_ne_zero.mpr (ne_of_gt hVlt)
  have hsubpos : 0 < Vcc - V := sub_pos.mpr hVlt
  rcases hv with h | h
  · subst h
    refine ⟨V * Rb / (Vcc - V), ?_, ?_⟩
    · simp [MainComputeThermistorResistance, fpMul, fpSub, fpDiv, hsub]
    · have hrpos : 0 < V * Rb / (Vcc - V) := div_pos (mul_pos hV0 hRb) hsubpos
      have hden : Rb + V * Rb / (Vcc - V) ≠ 0 := by positivity
      unfold forwardDividerOutputVoltage
      rw [if_pos rfl]
      field_simp
      ring
  · subst h
    refine ⟨Vcc * Rb / V - Rb, ?_, ?_⟩
    · have : MainComputeThermistorResistance 2 (.num Vcc) (.num V) (.num Rb) =
          fpSub (fpDiv (fpMul (.num Vcc) (.num Rb)) (.num V)) (.num Rb) := by
        unfold MainComputeThermistorResistance
        rw [if_neg (by norm_num)]
      rw [this]
      simp [fpMul, fpSub, fpDiv, hV0.ne']
    · have hden : Vcc * Rb / V - Rb + Rb ≠ 0 := by
        rw [sub_add_cancel]
        positivity
      unfold forwardDividerOutputVoltage
      rw [if_neg (by norm_num), sub_add_cancel]
      rw [div_div_eq_mul_div]
      exact mul_div_cancel_left₀ V (by positivity)

/-- C8 witness: variant 1 at `Vcc = 3.3`, `Rb = 10000`, `V = 1.65` yields a
finite resistance that the forward divider equation maps back to `1.65`. -/
theorem resistance_round_trip_witness :
    ((1 : ℤ) = 1 ∨ (1 : ℤ) = 2) ∧ (0 : ℝ) < 3.3 ∧ (0 : ℝ) < 10000 ∧
    (0 : ℝ) < 1.65 ∧ (1.65 : ℝ) < 3.3 ∧
    ∃ r : ℝ, MainComputeThermistorResistance 1 (.num 3.3) (.num 1.65)
        (.num 10000) = .num r ∧ forwardDividerOutputVoltage 1 3.3 10000 r = 1.65 :=
  ⟨Or.inl rfl, by norm_num, by norm_num, by norm_num, by norm_num,
    resistance_round_trip 1 3.3 10000 1.65 (Or.inl rfl) (by norm_num)
      (by norm_num) (by norm_num) (by norm_num)⟩

/-- C5 counterexample: the command line `-a 1` passes validation (only the
upper bound 65536 is checked), so a run with ADC resolution 1 — outside the
spec's valid range `2 ≤ adc_resolution` — does not fail. -/
theorem validation_lower_bound_counterexample :
    mainRun [CliOption.optAdc (some 1)] initValues ≠ MainResult.failure := by
  have h : processOptions [CliOption.optAdc (some 1)] defaultConfig =
      MainOutcome.table { defaultConfig with adc_resolution := 1 } := by
    simp [processOptions]
  unfold mainRun
  rw [h]
  simp

/-- C5 amended: option processing fails with a non-zero exit and no table
rows for every circuit variant outside `{1, 2}`, for every ADC resolution
above 65536, and for every option whose numeric conversion fails; ADC
resolutions 0 and 1 (below the spec's valid range) are accepted, since only
the upper bound is checked. -/
theorem validation_rejects (c : ℤ) (a : ℕ) (rest : List CliOption)
    (vals : ℕ → TMainComputedValues) :
    ((c < 1 ∨ 2 < c) →
      mainRun (CliOption.optCircuit (some c) :: rest) vals = MainResult.failure) ∧
    (65536 < a →
      mainRun (CliOption.optAdc (some a) :: rest) vals = MainResult.failure) ∧
    mainRun (CliOption.optCircuit none :: rest) vals = MainResult.failure ∧
    mainRun (CliOption.optAdc none :: rest) vals = MainResult.failure := by
  refine ⟨fun hc => ?_, fun ha => ?_, ?_, ?_⟩
  · unfold mainRun
    simp [processOptions, if_pos hc]
  · unfold mainRun
    simp [processOptions, if_pos ha]
  · unfold mainRun
    simp [processOptions]
  · unfold mainRun
    simp [processOptions]

/-- C5 witness: `-c 3` and `-a 100000` both fail with no table rows. -/
theorem validation_rejects_witness :
    ((3 : ℤ) < 1 ∨ (2 : ℤ) < 3) ∧ 65536 < 100000 ∧
    mainRun [CliOption.optCircuit (some 3)] initValues = MainResult.failure ∧
    mainRun [CliOption.optAdc (some 100000)] initValues = MainResult.failure :=
  ⟨Or.inr (by norm_num), by norm_num,
    (validation_rejects 3 100000 [] initValues).1 (Or.inr (by norm_num)),
    (validation_rejects 3 100000 [] initValues).2.1 (by norm_num)⟩

/-- Option processing never raises the ADC resolution above 65536: the `-a`
branch rejects any larger value before storing it. -/
theorem processOptions_resolution_le (opts : List CliOption) :
    ∀ cfg cfg' : Config, cfg.adc_resolution ≤ 65536 →
      processOptions opts cfg = .table cfg' → cfg'.adc_resolution ≤ 65536 := by
  induction opts with
  | nil =>
    intro cfg cfg' hle h
    simp only [processOptions] at h
    cases h
    exact hle
  | cons o rest ih =>
    intro cfg cfg' hle h
    cases o with
    | optBeta v =>
      cases v with
      | none => simp [processOptions] at h
      | some x =>
        exact ih { cfg with beta_coefficient := x } cfg' (by simpa using hle)
          (by simpa [processOptions] using h)
    | optReference v =>
      cases v with
      | none => simp [processOptions] at h
      | some x =>
        exact ih { cfg with reference_resistance := x } cfg' (by simpa using hle)
          (by simpa [processOptions] using h)
    | optAdc v =>
      cases v with
      | none => simp [processOptions] at h
      | some a =>
        by_cases ha : 65536 < a
        · simp [processOptions, ha] at h
        · exact ih { cfg with adc_resolution := a } cfg'
            (by simpa using le_of_not_lt ha) (by simpa [processOptions, ha] using h)
    | optCircuit v =>
      cases v with
      | none => simp [processOptions] at h
      | some c =>
        by_cases hc : c < 1 ∨ 2 < c
        · simp [processOptions, hc] at h
        · exact ih { cfg with circuit_variant := c } cfg' (by simpa using hle)
            (by simpa [processOptions, hc] using h)
    | optHelp => simp [processOptions] at h
    | optResistor v =>
      cases v with
      | none => simp [processOptions] at h
      | some x =>
        exact ih { cfg with bridge_resistor := x } cfg' (by simpa using hle)
          (by simpa [processOptions] using h)
    | optVoltage v =>
      cases v with
      | none => simp [processOptions] at h
      | some x =>
        exact ih { cfg with supply_voltage := x } cfg' (by simpa using hle)
          (by simpa [processOptions] using h)
    | optUnknown => simp [processOptions] at h

/-- C10: for every command line accepted by option processing, the resolved
ADC resolution is at most 65536, so every index used by the compute and
print loops (the ADC codes `0, ..., adc_resolution - 1`) is below the
65536-element capacity of the `Values` array — no out-of-bounds access is
reachable. -/
theorem values_indices_in_bounds (opts : List CliOption) (cfg : Config)
    (h : processOptions opts defaultConfig = .table cfg) :
    cfg.adc_resolution ≤ 65536 ∧
    (∀ i ∈ List.range cfg.adc_resolution, i < 65536) ∧
    ∀ p ∈ mainEmittedRows cfg initValues, p.1 < 65536 := by
  have hle : cfg.adc_resolution ≤ 65536 :=
    processOptions_resolution_le opts defaultConfig cfg
      (by norm_num [defaultConfig]) h
  refine ⟨hle, fun i hi => lt_of_lt_of_le (List.mem_range.mp hi) hle, ?_⟩
  intro p hp
  rw [mainEmittedRows_eq cfg initValues] at hp
  rcases List.mem_map.mp hp with ⟨i, hi, rfl⟩
  exact lt_of_lt_of_le (List.mem_range.mp hi) hle

/-- C10 witness: the empty command line resolves to the default
configuration (resolution 256), whose loop indices all stay below 65536. -/
theorem values_indices_in_bounds_witness :
    processOptions [] defaultConfig = MainOutcome.table defaultConfig ∧
    (defaultConfig.adc_resolution ≤ 65536 ∧
      (∀ i ∈ List.range defaultConfig.adc_resolution, i < 65536) ∧
      ∀ p ∈ mainEmittedRows defaultConfig initValues, p.1 < 65536) :=
  ⟨by simp [processOptions],
    values_indices_in_bounds [] defaultConfig (by simp [processOptions])⟩

end ThermistorCalculator
